import Mathlib

/-!
Shallow embedding of the carbon time-series analysis engine of the
fullcam-integration repository.

Strings are modelled as `List Char` (named `Str` below); JavaScript numbers are
modelled as exact rationals `ℚ`; JavaScript `undefined`/`NaN` propagation in the
parsers is modelled with `Option`.  `Number.prototype.toFixed(n)` followed by
`parseFloat` (the rounding idiom used throughout the source) is modelled by
`roundTo n`, decimal rounding with ties toward positive infinity, which is the
tie behaviour of `toFixed`.

Sources embedded:
  * `src/unnamed/part_000`: `calculateCarbonSequestration`, `dateToDecimalYear`,
    `calculateAverageAnnualSequestration`.
  * `src/project/src/carbon-charts.ts`: `toStepPoint`,
    `extractStepCarbonChanges`, `getSharedTickIndices`,
    `buildCumulativeSequestrationSeries`.
-/

/-- Strings of the embedded program, as lists of characters. -/
abbrev Str := List Char

/-! ## Generic text utilities (models of the JavaScript string operations) -/

/-- Model of JavaScript `s.split(sep)` for a one-character separator.
`splitChar sep ""` is `[""]`, as in JavaScript. -/
def splitChar (sep : Char) (cs : Str) : List Str :=
  cs.foldr
    (fun c acc =>
      if c = sep then [] :: acc
      else
        match acc with
        | [] => [[c]]
        | g :: gs => (c :: g) :: gs)
    [[]]

/-- Model of JavaScript `s.trim()`: drop whitespace at both ends. -/
def trimStr (cs : Str) : Str :=
  ((cs.dropWhile Char.isWhitespace).reverse.dropWhile Char.isWhitespace).reverse

/-- Model of JavaScript `s.toLowerCase()` on the ASCII headers used here. -/
def toLowerStr (cs : Str) : Str := cs.map Char.toLower

/-- Whether `needle` occurs at the start of `hay`. -/
def headMatches : Str → Str → Bool
  | [], _ => true
  | _ :: _, [] => false
  | n :: ns, h :: hs => n = h && headMatches ns hs

/-- Model of JavaScript `hay.includes(needle)`: substring containment. -/
def containsSub (needle : Str) : Str → Bool
  | [] => headMatches needle []
  | h :: t => headMatches needle (h :: t) || containsSub needle t

/-! ## Numeric parsing (models of `parseFloat` / `parseInt`) -/

/-- Numeric value of a decimal digit character. -/
def digitVal (c : Char) : ℕ := c.toNat - '0'.toNat

/-- Value of a digit list read as a decimal integer. -/
def natOfDigits (ds : Str) : ℕ := ds.foldl (fun a c => a * 10 + digitVal c) 0

/-- Value of a digit list read as a decimal fraction `0.d₀d₁…`. -/
def fracOfDigits (ds : Str) : ℚ := ds.foldr (fun c a => (digitVal c + a) / 10) 0

/-- Model of JavaScript `parseFloat` on an already-trimmed field: an optional
sign, then a longest prefix `digits [. digits]` with at least one digit
somewhere; trailing garbage is ignored, no digit at all gives `NaN`,
modelled as `none`.  (The exponent and `Infinity` forms never occur in the
simulation exports and are not modelled.) -/
def parseFloatQ (cs : Str) : Option ℚ :=
  let (sgn, rest) :=
    match cs with
    | '-' :: t => ((-1 : ℚ), t)
    | '+' :: t => ((1 : ℚ), t)
    | _ => ((1 : ℚ), cs)
  let intDigits := rest.takeWhile Char.isDigit
  let rest2 := rest.dropWhile Char.isDigit
  let fracDigits :=
    match rest2 with
    | '.' :: t => t.takeWhile Char.isDigit
    | _ => []
  if intDigits.isEmpty && fracDigits.isEmpty then none
  else some (sgn * (natOfDigits intDigits + fracOfDigits fracDigits))

/-- Model of JavaScript `parseInt(s, 10)` on an already-trimmed field: an
optional sign and a longest digit prefix; no digit gives `NaN` (`none`). -/
def parseIntZ (cs : Str) : Option ℤ :=
  let (sgn, rest) :=
    match cs with
    | '-' :: t => ((-1 : ℤ), t)
    | '+' :: t => ((1 : ℤ), t)
    | _ => ((1 : ℤ), cs)
  let intDigits := rest.takeWhile Char.isDigit
  if intDigits.isEmpty then none
  else some (sgn * natOfDigits intDigits)

/-! ## Decimal rounding (model of `parseFloat(x.toFixed(n))`) -/

/-- Floor of a rational, computed on the numerator/denominator pair so that it
evaluates by kernel reduction. -/
def ratFloor (q : ℚ) : ℤ := Int.fdiv q.num q.den

/-- Round to the nearest integer, ties toward positive infinity (the tie rule
of JavaScript `toFixed`). -/
def ratRound (q : ℚ) : ℤ := ratFloor (q + 1 / 2)

/-- Model of `parseFloat(x.toFixed(n))`: round to `n` decimal places. -/
def roundTo (n : ℕ) (q : ℚ) : ℚ := (ratRound (q * 10 ^ n) : ℚ) / 10 ^ n

/-! ## Integer formatting (model of JavaScript template `${n}`) -/

/-- Decimal digits of a natural number (model of number-to-string on the
integral values appearing in chart labels). -/
def natToStr (n : ℕ) : Str := Nat.toDigits 10 n

/-- Decimal representation of an integer. -/
def intToStr (i : ℤ) : Str :=
  if i < 0 then '-' :: natToStr i.natAbs else natToStr i.toNat

unseal Rat.mul Rat.inv Rat.add Rat.sub in
example : roundTo 3 ((24289 : ℚ) / 12) = 2024083 / 1000 := by decide

unseal Rat.mul Rat.inv Rat.add Rat.sub in
example : parseFloatQ ( "2024.083" ).data = some (2024083 / 1000) := by decide

example : parseIntZ ( "2024" ).data = some 2024 := by decide

example : intToStr 2024 = ( "2024" ).data := by decide

/-! ## CSV framing shared by both analysis entry points -/

/-- Model of `csvData.split('\n').filter(line => line.trim())`: split on
newlines and keep the lines that are non-blank after trimming. -/
def splitLines (cs : Str) : List Str :=
  (splitChar '\x0a' cs).filter (fun l => !(trimStr l).isEmpty)

/-- Model of `line.split(',').map(v => v.trim())`. -/
def splitRow (cs : Str) : List Str :=
  (splitChar ',' cs).map trimStr

/-- Column resolution as performed at every call site of the source:
`headers.findIndex(pred)`, returning the first index whose header text
satisfies the role's match rule (`none` models the `-1` sentinel). -/
def resolveColumn (pred : Str → Bool) (headers : List Str) : Option ℕ :=
  headers.findIdx? pred

/-- Field access `values[i]` on a split row: `undefined` (then `NaN` under
`parseFloat`) when the index is beyond the row's fields. -/
def fieldAt (vals : List Str) (i : ℕ) : Option Str := vals.get? i

/-- `parseFloat(values[i])`, with `NaN` modelled as `none`. -/
def floatFieldAt (vals : List Str) (i : ℕ) : Option ℚ :=
  match fieldAt vals i with
  | none => none
  | some s => parseFloatQ s

/-- `parseInt(values[i], 10)`, with `NaN` modelled as `none`. -/
def intFieldAt (vals : List Str) (i : ℕ) : Option ℤ :=
  match fieldAt vals i with
  | none => none
  | some s => parseIntZ s

/-! ## `src/unnamed/part_000`: carbon sequestration calculator -/

/-- The `SimulationResponse` shape consumed by the calculator.  `data` is the
raw CSV payload; `none` models an absent (`undefined`) payload and `some []`
an empty-string payload (both are falsy in the source's guard). -/
structure SimulationResponse where
  success : Bool
  data : Option Str
deriving DecidableEq

/-- Result record of `calculateCarbonSequestration`; optional fields model the
optional members of the TypeScript return type. -/
structure SeqResult where
  success : Bool
  totalCarbon : Option ℚ
  startCarbon : Option ℚ
  endCarbon : Option ℚ
  dataPoints : Option ℕ
  errMsg : Option Str
deriving DecidableEq

/-- Parse of one data row of the sequestration loop: the decimal-year and
tree-carbon fields must both parse numerically, otherwise the row is skipped
(the `isNaN … continue` branch). -/
def rowToRecord (di ci : ℕ) (line : Str) : Option (ℚ × ℚ) :=
  let vals := splitRow line
  match floatFieldAt vals di, floatFieldAt vals ci with
  | some d, some c => some (d, c)
  | _, _ => none

/-- One step of the closest-record scan for a single target date.  The state
is `none` before any usable record was seen (the source's
`null` value with distance `Infinity`); a record replaces the current best
only under a strictly smaller distance. -/
def nearestStep (target : ℚ) (st : Option (ℚ × ℚ)) (r : ℚ × ℚ) : Option (ℚ × ℚ) :=
  match st with
  | none => some (|r.1 - target|, r.2)
  | some (d, v) => if |r.1 - target| < d then some (|r.1 - target|, r.2) else some (d, v)

/-- One step of the source's single loop, which maintains the start-date best
and the end-date best side by side. -/
def nearestPairStep (startDate endDate : ℚ)
    (st : Option (ℚ × ℚ) × Option (ℚ × ℚ)) (r : ℚ × ℚ) :
    Option (ℚ × ℚ) × Option (ℚ × ℚ) :=
  (nearestStep startDate st.1 r, nearestStep endDate st.2 r)

/-- The closest-record scan for one target date over the usable records, in
input order: the value of the best record, `none` when no record is usable. -/
def nearestScan (recs : List (ℚ × ℚ)) (target : ℚ) : Option ℚ :=
  (recs.foldl (nearestStep target) none).map (fun p => p.2)

/-- Failure result shared by the error branches of the calculator. -/
def seqFailure (msg : Str) : SeqResult :=
  ⟨false, none, none, none, none, some msg⟩

def invalidResponseMsg : Str :=
  ( "Invalid simulation response or no data available" ).data

def noDataRowsMsg : Str :=
  ( "No data rows found in simulation response" ).data

def noDecYearColMsg : Str :=
  ( "Could not find \x22Dec. Year\x22 column in CSV data" ).data

def noCarbonColMsg : Str :=
  ( "Could not find \x22C mass of trees (tC/ha)\x22 column in CSV data" ).data

def noCarbonValuesMsg : Str :=
  ( "Could not find carbon values for the specified date range" ).data

def decYearPat : Str := ( "Dec. Year" ).data

def treesPat : Str := ( "C mass of trees" ).data

def debrisPat : Str := ( "C mass of forest debris" ).data

def tChaPat : Str := ( "tC/ha" ).data

def yearPat : Str := ( "year" ).data

def stepInYearPat : Str := ( "step in year" ).data

/-- Embedding of `calculateCarbonSequestration` of `src/unnamed/part_000`.
The single source loop that skips unparsable rows and updates the two
closest-record states is rendered as `filterMap rowToRecord` followed by a
fold of `nearestPairStep` over the usable records — the same traversal in the
same order. -/
def calculateCarbonSequestration (resp : SimulationResponse)
    (startDate endDate : ℚ) : SeqResult :=
  if resp.success = false then seqFailure invalidResponseMsg
  else
    match resp.data with
    | none => seqFailure invalidResponseMsg
    | some csv =>
      if csv.isEmpty then seqFailure invalidResponseMsg
      else
        let lines := splitLines csv
        if lines.length < 2 then seqFailure noDataRowsMsg
        else
          let headers := splitRow (lines.getD 0 [])
          match resolveColumn (fun h => containsSub decYearPat h) headers with
          | none => seqFailure noDecYearColMsg
          | some di =>
            match resolveColumn
                (fun h => containsSub treesPat h && containsSub tChaPat h) headers with
            | none => seqFailure noCarbonColMsg
            | some ci =>
              let recs := (lines.drop 1).filterMap (rowToRecord di ci)
              let st := recs.foldl (nearestPairStep startDate endDate) (none, none)
              match st.1, st.2 with
              | some (_, sc), some (_, ec) =>
                ⟨true, some (roundTo 10 (ec - sc)), some (roundTo 10 sc),
                  some (roundTo 10 ec), some 2, none⟩
              | _, _ => seqFailure noCarbonValuesMsg

def invalidMonthMsg : Str := ( "Month must be between 1 and 12" ).data

/-- Embedding of `dateToDecimalYear` of `src/unnamed/part_000`; the thrown
`Error` is modelled as `Except.error` with the thrown message. -/
def dateToDecimalYear (year month : ℤ) : Except Str ℚ :=
  if month < 1 ∨ month > 12 then
    Except.error invalidMonthMsg
  else
    Except.ok (roundTo 3 ((year : ℚ) + ((month : ℚ) - 1) / 12))

/-- Result record of `calculateAverageAnnualSequestration`. -/
structure AvgResult where
  success : Bool
  totalCarbon : Option ℚ
  averagePerYear : Option ℚ
  years : Option ℚ
  errMsg : Option Str
deriving DecidableEq

/-- Embedding of `calculateAverageAnnualSequestration` of
`src/unnamed/part_000`.  The `try`/`catch` around the two
`dateToDecimalYear` calls is modelled by propagating their `Except.error`
as a failure result carrying the thrown message. -/
def calculateAverageAnnualSequestration (resp : SimulationResponse)
    (startYear startMonth endYear endMonth : ℤ) : AvgResult :=
  match dateToDecimalYear startYear startMonth with
  | Except.error e => ⟨false, none, none, none, some e⟩
  | Except.ok startDate =>
    match dateToDecimalYear endYear endMonth with
    | Except.error e => ⟨false, none, none, none, some e⟩
    | Except.ok endDate =>
      let result := calculateCarbonSequestration resp startDate endDate
      if result.success = false then ⟨false, none, none, none, result.errMsg⟩
      else
        match result.totalCarbon with
        | none => ⟨false, none, none, none, result.errMsg⟩
        | some t =>
          let years := endDate - startDate
          let averagePerYear := if years > 0 then t / years else 0
          ⟨true, some t, some (roundTo 10 averagePerYear), some (roundTo 2 years), none⟩

/-! ## `src/project/src/carbon-charts.ts`: step-series change builder -/

/-- The analysis window requested by the caller. -/
structure CarbonAnalysisRange where
  startYear : ℤ
  startStepInYear : ℤ
  endYear : ℤ
  endStepInYear : ℤ
deriving DecidableEq

/-- One emitted per-step carbon change. -/
structure StepCarbonChange where
  label : Str
  delta : ℚ
deriving DecidableEq

/-- One point of the cumulative sequestration series. -/
structure CumulativeCarbonPoint where
  label : Str
  total : ℚ
deriving DecidableEq

/-- The `ChartResult` shape returned by `extractStepCarbonChanges`. -/
structure ChartResult where
  success : Bool
  errMsg : Option Str
  data : Option (List StepCarbonChange)
deriving DecidableEq

/-- Embedding of `toStepPoint`: the orderable step key `year*12 + (step-1)`. -/
def toStepPoint (year stepInYear : ℤ) : ℤ :=
  year * 12 + (stepInYear - 1)

/-- One parsed chart row of `extractStepCarbonChanges`. -/
structure ChartPoint where
  year : ℤ
  step : ℤ
  point : ℤ
  combinedCarbon : ℚ
deriving DecidableEq

/-- Parse of one data row of the chart loop: year and step via `parseInt`,
the two carbon masses via `parseFloat`; any `NaN` drops the row (the
`isNaN … continue` branch). -/
def rowToChartPoint (yi si ti di : ℕ) (line : Str) : Option ChartPoint :=
  let vals := splitRow line
  match intFieldAt vals yi, intFieldAt vals si,
      floatFieldAt vals ti, floatFieldAt vals di with
  | some year, some step, some trees, some debris =>
    some ⟨year, step, toStepPoint year step, trees + debris⟩
  | _, _, _, _ => none

/-- Stable ascending insertion by step point: an element is placed before the
first element of greater-or-equal key, so elements with equal keys keep their
original relative order — the behaviour of the source's stable
`points.sort((a, b) => a.point - b.point)`. -/
def insertByPoint (p : ChartPoint) : List ChartPoint → List ChartPoint
  | [] => [p]
  | q :: rest => if p.point ≤ q.point then p :: q :: rest else q :: insertByPoint p rest

/-- Stable sort of the parsed points ascending by step point. -/
def sortByPoint : List ChartPoint → List ChartPoint
  | [] => []
  | p :: rest => insertByPoint p (sortByPoint rest)

/-- Chart label `"{year}-S{step}"` of a parsed point. -/
def stepLabel (p : ChartPoint) : Str :=
  intToStr p.year ++ ('-' :: 'S' :: []) ++ intToStr p.step

/-- The walk from sorted index 1: `prev` is the immediately preceding record
of the full sorted order; a change is emitted only when the current record's
step point lies inside the inclusive window. -/
def buildChangesFrom (startPoint endPoint : ℤ) : ChartPoint → List ChartPoint →
    List StepCarbonChange
  | _, [] => []
  | prev, cur :: rest =>
    (if startPoint ≤ cur.point ∧ cur.point ≤ endPoint then
      [⟨stepLabel cur, roundTo 10 (cur.combinedCarbon - prev.combinedCarbon)⟩]
    else []) ++ buildChangesFrom startPoint endPoint cur rest

/-- The emission loop of `extractStepCarbonChanges` over the sorted points. -/
def buildChanges (startPoint endPoint : ℤ) : List ChartPoint → List StepCarbonChange
  | [] => []
  | p :: rest => buildChangesFrom startPoint endPoint p rest

/-- The inclusive, direction-agnostic window of a requested range:
`(min, max)` of the two endpoint step points. -/
def windowOf (range : CarbonAnalysisRange) : ℤ × ℤ :=
  (min (toStepPoint range.startYear range.startStepInYear)
    (toStepPoint range.endYear range.endStepInYear),
  max (toStepPoint range.startYear range.startStepInYear)
    (toStepPoint range.endYear range.endStepInYear))

def noSimRowsMsg : Str := ( "No simulation rows to chart" ).data

def noChartColsMsg : Str :=
  ( "Required carbon chart columns not found in simulation CSV" ).data

def notEnoughPointsMsg : Str :=
  ( "Not enough data points to chart carbon change per step" ).data

def noChangesInRangeMsg : Str :=
  ( "No step changes found in selected analysis period" ).data

/-- Embedding of `extractStepCarbonChanges` of
`src/project/src/carbon-charts.ts` on a string payload (per the interface
contract, a non-string payload is pre-serialized by the caller). -/
def extractStepCarbonChanges (csv : Str) (range : CarbonAnalysisRange) : ChartResult :=
  let lines := splitLines csv
  if lines.length < 2 then ⟨false, some noSimRowsMsg, none⟩
  else
    let headers := splitRow (lines.getD 0 [])
    let yearIdx := resolveColumn (fun h => toLowerStr h = yearPat) headers
    let stepIdx := resolveColumn (fun h => containsSub stepInYearPat (toLowerStr h)) headers
    let treesIdx := resolveColumn
      (fun h => containsSub treesPat h && containsSub tChaPat h) headers
    let debrisIdx := resolveColumn
      (fun h => containsSub debrisPat h && containsSub tChaPat h) headers
    match yearIdx, stepIdx, treesIdx, debrisIdx with
    | some yi, some si, some ti, some di =>
      let points := (lines.drop 1).filterMap (rowToChartPoint yi si ti di)
      let sorted := sortByPoint points
      if sorted.length < 2 then ⟨false, some notEnoughPointsMsg, none⟩
      else
        let w := windowOf range
        let changes := buildChanges w.1 w.2 sorted
        if changes.isEmpty then ⟨false, some noChangesInRangeMsg, none⟩
        else ⟨true, none, some changes⟩
    | _, _, _, _ => ⟨false, some noChartColsMsg, none⟩

/-- Embedding of `getSharedTickIndices`: tick positions shared by the two
aligned charts, as the set of indices below the series length that are
multiples of the tick step or equal to the last index. -/
def getSharedTickIndices (seriesLength : ℕ) : Finset ℕ :=
  if seriesLength < 1 then ∅
  else
    let xTickStep := max 1 ((seriesLength + 7) / 8)
    (Finset.range seriesLength).filter
      (fun index => index % xTickStep = 0 ∨ index = seriesLength - 1)

/-- The running-total loop of `buildCumulativeSequestrationSeries`: the
accumulator carries the exact (unrounded) running total; each emitted point
rounds the current total to 10 decimal places. -/
def buildCumulativeFrom (runningTotal : ℚ) : List StepCarbonChange →
    List CumulativeCarbonPoint
  | [] => []
  | c :: rest =>
    ⟨c.label, roundTo 10 (runningTotal + c.delta)⟩ ::
      buildCumulativeFrom (runningTotal + c.delta) rest

/-- Embedding of `buildCumulativeSequestrationSeries`. -/
def buildCumulativeSequestrationSeries (changes : List StepCarbonChange) :
    List CumulativeCarbonPoint :=
  buildCumulativeFrom 0 changes

/-! ## Helper lemmas -/

theorem findIdx?_congr_aux {α : Type} (p : α → Bool) :
    ∀ (l₁ l₂ : List α) (k : ℕ), l₁.length = l₂.length →
      (∀ i (h₁ : i < l₁.length) (h₂ : i < l₂.length),
        p (l₁.get ⟨i, h₁⟩) = p (l₂.get ⟨i, h₂⟩)) →
      List.findIdx? p l₁ k = List.findIdx? p l₂ k
  | [], [], _, _, _ => rfl
  | [], _ :: _, _, hlen, _ => by simp at hlen
  | _ :: _, [], _, hlen, _ => by simp at hlen
  | a :: l₁, b :: l₂, k, hlen, hpt => by
    have h0 : p a = p b := hpt 0 (Nat.succ_pos _) (Nat.succ_pos _)
    have hrest : List.findIdx? p l₁ (k + 1) = List.findIdx? p l₂ (k + 1) :=
      findIdx?_congr_aux p l₁ l₂ (k + 1) (by simpa using hlen)
        (fun i h₁ h₂ => hpt (i + 1) (Nat.succ_lt_succ h₁) (Nat.succ_lt_succ h₂))
    show (if p a then some k else List.findIdx? p l₁ (k + 1)) =
      (if p b then some k else List.findIdx? p l₂ (k + 1))
    rw [h0, hrest]

theorem findIdx?_isSome_aux {α : Type} (p : α → Bool) :
    ∀ (l : List α) (k : ℕ), (∃ x ∈ l, p x = true) → ∃ m, List.findIdx? p l k = some m
  | [], _, h => absurd h (by simp)
  | a :: l, k, h => by
    show ∃ m, (if p a then some k else List.findIdx? p l (k + 1)) = some m
    by_cases hpa : p a = true
    · exact ⟨k, by rw [hpa]; rfl⟩
    · have : ∃ x ∈ l, p x = true := by
        rcases h with ⟨x, hx, hpx⟩
        rcases List.mem_cons.mp hx with rfl | hxl
        · exact absurd hpx hpa
        · exact ⟨x, hxl, hpx⟩
      rcases findIdx?_isSome_aux p l (k + 1) this with ⟨m, hm⟩
      exact ⟨m, by rw [if_neg (by simpa using hpa)]; exact hm⟩

/-- C3 — For every header row in which a required role's match substrings are
present, and for every reordering of the columns unrelated to that role
(a permutation of the header positions that moves no column matching the
role's rule), column resolution returns the same index for that role on the
original and the reordered header. -/
theorem resolveColumn_reorder_invariant (pred : Str → Bool) (headers : List Str)
    (σ : Equiv.Perm (Fin headers.length))
    (hfix : ∀ i, pred (headers.get i) = true → σ i = i)
    (hpresent : ∃ i, pred (headers.get i) = true) :
    ∃ k, resolveColumn pred (List.ofFn (fun i => headers.get (σ i))) = some k ∧
      resolveColumn pred headers = some k :=
  by
  have hlen : (List.ofFn (fun i => headers.get (σ i))).length = headers.length :=
    List.length_ofFn _
  have hpt : ∀ i (h₁ : i < (List.ofFn (fun i => headers.get (σ i))).length)
      (h₂ : i < headers.length),
      pred ((List.ofFn (fun i => headers.get (σ i))).get ⟨i, h₁⟩) =
        pred (headers.get ⟨i, h₂⟩) := by
    intro i h₁ h₂
    rw [List.get_ofFn]
    have hcast : (Fin.cast hlen ⟨i, h₁⟩) = (⟨i, h₂⟩ : Fin headers.length) := rfl
    rw [hcast]
    by_cases hp : pred (headers.get ⟨i, h₂⟩) = true
    · rw [hfix _ hp, hp]
    · by_cases hq : pred (headers.get (σ ⟨i, h₂⟩)) = true
      · have := hfix _ hq
        have : σ ⟨i, h₂⟩ = ⟨i, h₂⟩ := σ.injective (by rw [this])
        rw [this] at hq
        exact absurd hq hp
      · rw [Bool.eq_false_iff.mpr hq, Bool.eq_false_iff.mpr hp]
  have hcongr : resolveColumn pred (List.ofFn (fun i => headers.get (σ i))) =
      resolveColumn pred headers :=
    findIdx?_congr_aux pred _ _ 0 hlen hpt
  rcases hpresent with ⟨i, hi⟩
  have : ∃ m, List.findIdx? pred headers 0 = some m :=
    findIdx?_isSome_aux pred headers 0 ⟨headers.get i, List.get_mem _ _ _, hi⟩
  rcases this with ⟨k, hk⟩
  exact ⟨k, by rw [hcongr]; exact hk, hk⟩

/-- The example export header of the specification, split into column names. -/
def exampleHeaderCols : List Str :=
  splitRow ( "Year,Step in Year,Dec. Year,C mass of trees (tC/ha),C mass of forest debris (tC/ha)" ).data

/-- C3 witness: a concrete header with the two carbon-mass columns swapped
(both unrelated to the `Dec. Year` role) resolves `Dec. Year` to index 2 both
before and after the reordering. -/
theorem resolveColumn_reorder_invariant_witness :
    ∃ k,
      resolveColumn (fun h => containsSub decYearPat h)
        (List.ofFn (fun i =>
          exampleHeaderCols.get ((Equiv.swap ⟨3, by decide⟩ ⟨4, by decide⟩) i))) = some k ∧
      resolveColumn (fun h => containsSub decYearPat h) exampleHeaderCols = some k :=
  resolveColumn_reorder_invariant _ exampleHeaderCols
    (Equiv.swap ⟨3, by decide⟩ ⟨4, by decide⟩) (by decide) ⟨⟨2, by decide⟩, by decide⟩

theorem nearestFold_spec (target : ℚ) :
    ∀ (recs : List (ℚ × ℚ)) (d v : ℚ),
      ∃ p : ℚ × ℚ, recs.foldl (nearestStep target) (some (d, v)) = some p ∧ p.1 ≤ d ∧
        ((p = (d, v) ∧ ∀ r ∈ recs, d ≤ |r.1 - target|) ∨
          (∃ i : Fin recs.length,
            p = (|(recs.get i).1 - target|, (recs.get i).2) ∧ p.1 < d ∧
            (∀ j : Fin recs.length, p.1 ≤ |(recs.get j).1 - target|) ∧
            (∀ j : Fin recs.length, (j : ℕ) < (i : ℕ) →
              p.1 < |(recs.get j).1 - target|)))
  | [], d, v => ⟨(d, v), rfl, le_refl _, Or.inl ⟨rfl, by simp⟩⟩
  | r :: rs, d, v => by
    by_cases h : |r.1 - target| < d
    · have hstep : List.foldl (nearestStep target) (some (d, v)) (r :: rs) =
          List.foldl (nearestStep target) (some (|r.1 - target|, r.2)) rs := by
        show List.foldl (nearestStep target) (nearestStep target (some (d, v)) r) rs = _
        rw [nearestStep, if_pos h]
      rcases nearestFold_spec target rs (|r.1 - target|) r.2 with ⟨p, hfold, hle, hcase⟩
      refine ⟨p, by rw [hstep]; exact hfold, le_of_lt (lt_of_le_of_lt hle h), Or.inr ?_⟩
      rcases hcase with ⟨hpv, hall⟩ | ⟨i, hpi, hlt, hall, hstrict⟩
      · refine ⟨⟨0, Nat.succ_pos _⟩, hpv, by rw [hpv]; exact h, ?_, ?_⟩
        · intro j
          refine Fin.cases ?_ ?_ j
          · rw [hpv]
            exact le_refl _
          · intro k
            rw [hpv]
            exact hall _ (List.get_mem rs k.1 k.2)
        · intro j hj
          exact absurd hj (Nat.not_lt_zero _)
      · refine ⟨i.succ, hpi, lt_of_le_of_lt hle h, ?_, ?_⟩
        · intro j
          refine Fin.cases ?_ ?_ j
          · exact le_of_lt hlt
          · intro k
            exact hall k
        · intro j
          refine Fin.cases ?_ ?_ j
          · intro _
            exact hlt
          · intro k hk
            exact hstrict k (Nat.lt_of_succ_lt_succ hk)
    · have hstep : List.foldl (nearestStep target) (some (d, v)) (r :: rs) =
          List.foldl (nearestStep target) (some (d, v)) rs := by
        show List.foldl (nearestStep target) (nearestStep target (some (d, v)) r) rs = _
        rw [nearestStep, if_neg h]
      rcases nearestFold_spec target rs d v with ⟨p, hfold, hle, hcase⟩
      refine ⟨p, by rw [hstep]; exact hfold, hle, ?_⟩
      rcases hcase with ⟨hpv, hall⟩ | ⟨i, hpi, hlt, hall, hstrict⟩
      · refine Or.inl ⟨hpv, ?_⟩
        intro x hx
        rcases List.mem_cons.mp hx with rfl | hxl
        · exact not_lt.mp h
        · exact hall x hxl
      · refine Or.inr ⟨i.succ, hpi, hlt, ?_, ?_⟩
        · intro j
          refine Fin.cases ?_ ?_ j
          · exact le_trans (le_of_lt hlt) (not_lt.mp h)
          · intro k
            exact hall k
        · intro j
          refine Fin.cases ?_ ?_ j
          · intro _
            exact lt_of_lt_of_le hlt (not_lt.mp h)
          · intro k hk
            exact hstrict k (Nat.lt_of_succ_lt_succ hk)

/-- C4 — On every non-empty list of usable records, the closest-record scan
returns the value of the first record in input order attaining the minimum
distance `|decimalYear − target|`: the returned index attains the minimum and
every earlier index has strictly greater distance.  Moreover a record at
exactly the current best distance never replaces the current best (the
strictly-less-than update rule). -/
theorem nearestScan_first_argmin (recs : List (ℚ × ℚ)) (hne : recs ≠ [])
    (target : ℚ) :
    (∃ i : Fin recs.length,
      nearestScan recs target = some ((recs.get i).2) ∧
      (∀ j : Fin recs.length,
        |(recs.get i).1 - target| ≤ |(recs.get j).1 - target|) ∧
      (∀ j : Fin recs.length, (j : ℕ) < (i : ℕ) →
        |(recs.get i).1 - target| < |(recs.get j).1 - target|)) ∧
    (∀ (d v : ℚ) (r : ℚ × ℚ), |r.1 - target| = d →
      nearestStep target (some (d, v)) r = some (d, v)) := by
  constructor
  · match recs, hne with
    | r :: rs, _ =>
      have hstep : nearestScan (r :: rs) target =
          (List.foldl (nearestStep target) (some (|r.1 - target|, r.2)) rs).map
            (fun p => p.2) := rfl
      rcases nearestFold_spec target rs (|r.1 - target|) r.2 with ⟨p, hfold, hle, hcase⟩
      rcases hcase with ⟨hpv, hall⟩ | ⟨i, hpi, hlt, hall, hstrict⟩
      · refine ⟨⟨0, Nat.succ_pos _⟩, ?_, ?_, ?_⟩
        · rw [hstep, hfold, hpv]
          exact rfl
        · intro j
          refine Fin.cases ?_ ?_ j
          · exact le_refl _
          · intro k
            exact hall _ (List.get_mem rs k.1 k.2)
        · intro j hj
          exact absurd hj (Nat.not_lt_zero _)
      · refine ⟨i.succ, ?_, ?_, ?_⟩
        · rw [hstep, hfold]
          show some p.2 = _
          rw [hpi]
          exact rfl
        · intro j
          have hpt : |((r :: rs).get i.succ).1 - target| = p.1 := by
            rw [hpi]
            exact rfl
          rw [hpt]
          refine Fin.cases ?_ ?_ j
          · exact le_of_lt hlt
          · intro k
            exact hall k
        · intro j
          have hpt : |((r :: rs).get i.succ).1 - target| = p.1 := by
            rw [hpi]
            exact rfl
          rw [hpt]
          refine Fin.cases ?_ ?_ j
          · intro _
            exact hlt
          · intro k hk
            exact hstrict k (Nat.lt_of_succ_lt_succ hk)
  · intro d v r hr
    rw [nearestStep, if_neg (by rw [hr]; exact lt_irrefl d)]

/-- C4 witness: two records equidistant (distance 1) from target 2025; the
scan returns the earlier record's value 10, attained at index 0. -/
theorem nearestScan_first_argmin_witness :
    (∃ i : Fin ([((2024 : ℚ), (10 : ℚ)), (2026, 99)].length),
      nearestScan [((2024 : ℚ), (10 : ℚ)), (2026, 99)] 2025 =
        some (([((2024 : ℚ), (10 : ℚ)), (2026, 99)].get i).2) ∧
      (∀ j, |(([((2024 : ℚ), (10 : ℚ)), (2026, 99)].get i).1 - 2025)| ≤
        |(([((2024 : ℚ), (10 : ℚ)), (2026, 99)].get j).1 - 2025)|) ∧
      (∀ j : Fin ([((2024 : ℚ), (10 : ℚ)), (2026, 99)].length), (j : ℕ) < (i : ℕ) →
        |(([((2024 : ℚ), (10 : ℚ)), (2026, 99)].get i).1 - 2025)| <
          |(([((2024 : ℚ), (10 : ℚ)), (2026, 99)].get j).1 - 2025)|)) ∧
    (∀ (d v : ℚ) (r : ℚ × ℚ), |r.1 - 2025| = d →
      nearestStep 2025 (some (d, v)) r = some (d, v)) :=
  nearestScan_first_argmin [((2024 : ℚ), (10 : ℚ)), (2026, 99)] (by simp) 2025

theorem mem_insertByPoint (p x : ChartPoint) :
    ∀ l : List ChartPoint, x ∈ insertByPoint p l ↔ x = p ∨ x ∈ l
  | [] => by simp [insertByPoint]
  | q :: rest => by
    rw [insertByPoint]
    by_cases h : p.point ≤ q.point
    · rw [if_pos h]
      simp [or_comm, or_assoc, or_left_comm]
    · rw [if_neg h]
      simp only [List.mem_cons, mem_insertByPoint p x rest]
      tauto

theorem insertByPoint_perm (p : ChartPoint) :
    ∀ l : List ChartPoint, List.Perm (insertByPoint p l) (p :: l)
  | [] => List.Perm.refl _
  | q :: rest => by
    rw [insertByPoint]
    by_cases h : p.point ≤ q.point
    · rw [if_pos h]
    · rw [if_neg h]
      exact ((insertByPoint_perm p rest).cons q).trans (List.Perm.swap p q rest)

theorem pairwise_insertByPoint (p : ChartPoint) :
    ∀ l : List ChartPoint, List.Pairwise (fun a b => a.point ≤ b.point) l →
      List.Pairwise (fun a b => a.point ≤ b.point) (insertByPoint p l)
  | [], _ => List.Pairwise.cons (by simp) List.Pairwise.nil
  | q :: rest, hl => by
    rcases List.pairwise_cons.mp hl with ⟨hq, hrest⟩
    rw [insertByPoint]
    by_cases h : p.point ≤ q.point
    · rw [if_pos h]
      refine List.pairwise_cons.mpr ⟨?_, hl⟩
      intro x hx
      rcases List.mem_cons.mp hx with rfl | hxl
      · exact h
      · exact le_trans h (hq x hxl)
    · rw [if_neg h]
      refine List.pairwise_cons.mpr ⟨?_, pairwise_insertByPoint p rest hrest⟩
      intro x hx
      rcases (mem_insertByPoint p x rest).mp hx with rfl | hxl
      · exact le_of_lt (not_le.mp h)
      · exact hq x hxl

theorem sortByPoint_perm : ∀ l : List ChartPoint, List.Perm (sortByPoint l) l
  | [] => List.Perm.refl _
  | p :: rest =>
    (insertByPoint_perm p (sortByPoint rest)).trans ((sortByPoint_perm rest).cons p)

theorem sortByPoint_pairwise : ∀ l : List ChartPoint,
    List.Pairwise (fun a b => a.point ≤ b.point) (sortByPoint l)
  | [] => List.Pairwise.nil
  | p :: rest => pairwise_insertByPoint p (sortByPoint rest) (sortByPoint_pairwise rest)

theorem buildChangesFrom_eq_filterMap (sp ep : ℤ) :
    ∀ (rest : List ChartPoint) (prev : ChartPoint),
      buildChangesFrom sp ep prev rest =
        ((prev :: rest).zip rest).filterMap (fun pc =>
          if sp ≤ pc.2.point ∧ pc.2.point ≤ ep then
            some ⟨stepLabel pc.2, roundTo 10 (pc.2.combinedCarbon - pc.1.combinedCarbon)⟩
          else none)
  | [], _ => rfl
  | cur :: rest, prev => by
    rw [buildChangesFrom, buildChangesFrom_eq_filterMap sp ep rest cur]
    show _ = List.filterMap _ ((prev, cur) :: (cur :: rest).zip rest)
    rw [List.filterMap_cons]
    by_cases h : sp ≤ cur.point ∧ cur.point ≤ ep
    · rw [if_pos h, if_pos h]
      rfl
    · rw [if_neg h, if_neg h]
      rfl

theorem buildChanges_eq_filterMap (sp ep : ℤ) (l : List ChartPoint) :
    buildChanges sp ep l =
      (l.zip l.tail).filterMap (fun pc =>
        if sp ≤ pc.2.point ∧ pc.2.point ≤ ep then
          some ⟨stepLabel pc.2, roundTo 10 (pc.2.combinedCarbon - pc.1.combinedCarbon)⟩
        else none) := by
  cases l with
  | nil => rfl
  | cons p rest => exact buildChangesFrom_eq_filterMap sp ep rest p

/-- The example export of the specification: the shared header and the rows
`2024,1,2024.0,10.0,2.0` and `2024,2,2024.083,10.5,2.1`. -/
def exampleCsv : Str :=
  ( "Year,Step in Year,Dec. Year,C mass of trees (tC/ha),C mass of forest debris (tC/ha)" ).data ++
    '\x0a' :: ( "2024,1,2024.0,10.0,2.0" ).data ++
    '\x0a' :: ( "2024,2,2024.083,10.5,2.1" ).data

unseal Rat.mul Rat.inv Rat.add Rat.sub in
/-- C5 — `stepChanges` sorts the usable records ascending by the step point
`year*12 + (step-1)` (a permutation of the records, ascending by `point`),
and walking the sorted order from index 1 emits, for exactly the records
inside the inclusive window, a change labelled `"{year}-S{step}"` whose delta
is `roundTo 10` of the combined-carbon difference against the immediately
preceding record of the full sorted order; on the two-row example export the
single emitted change is `"2024-S2"` with delta `0.6`. -/
theorem stepChanges_sorted_walk_spec :
    (∀ year stepInYear : ℤ, toStepPoint year stepInYear = year * 12 + (stepInYear - 1)) ∧
    (∀ l : List ChartPoint, List.Perm (sortByPoint l) l ∧
      List.Pairwise (fun a b => a.point ≤ b.point) (sortByPoint l)) ∧
    (∀ (sp ep : ℤ) (l : List ChartPoint),
      buildChanges sp ep l =
        (l.zip l.tail).filterMap (fun pc =>
          if sp ≤ pc.2.point ∧ pc.2.point ≤ ep then
            some ⟨stepLabel pc.2,
              roundTo 10 (pc.2.combinedCarbon - pc.1.combinedCarbon)⟩
          else none)) ∧
    extractStepCarbonChanges exampleCsv ⟨2024, 1, 2024, 2⟩ =
      ⟨true, none, some [⟨( "2024-S2" ).data, 3 / 5⟩]⟩ :=
  ⟨fun _ _ => rfl,
    fun l => ⟨sortByPoint_perm l, sortByPoint_pairwise l⟩,
    buildChanges_eq_filterMap,
    by decide⟩

theorem windowOf_swap (sy ss ey es : ℤ) :
    windowOf ⟨ey, es, sy, ss⟩ = windowOf ⟨sy, ss, ey, es⟩ := by
  simp only [windowOf]
  rw [min_comm, max_comm]

/-- C6 — `stepChanges` produces identical output when the two endpoints of the
analysis range are swapped: the effective window is `[min, max]` of the two
endpoint step points, so the range is direction-agnostic. -/
theorem stepChanges_range_direction_agnostic (csv : Str) (sy ss ey es : ℤ) :
    extractStepCarbonChanges csv ⟨ey, es, sy, ss⟩ =
      extractStepCarbonChanges csv ⟨sy, ss, ey, es⟩ := by
  unfold extractStepCarbonChanges
  rw [windowOf_swap]

unseal Rat.mul Rat.inv Rat.add Rat.sub in
/-- C7 — `decimalYear(year, month)` equals `year + (month-1)/12` rounded to 3
decimal places for every month in `[1, 12]`; in particular
`decimalYear(2024, 1) = 2024.0` and `decimalYear(2024, 2) = 2024.083`; and for
every month outside `[1, 12]` it fails with the invalid-month error. -/
theorem dateToDecimalYear_spec (y m : ℤ) :
    (1 ≤ m ∧ m ≤ 12 →
      dateToDecimalYear y m =
        Except.ok (roundTo 3 ((y : ℚ) + ((m : ℚ) - 1) / 12))) ∧
    (m < 1 ∨ 12 < m → dateToDecimalYear y m = Except.error invalidMonthMsg) ∧
    dateToDecimalYear 2024 1 = Except.ok 2024 ∧
    dateToDecimalYear 2024 2 = Except.ok (2024083 / 1000) ∧
    dateToDecimalYear 2024 13 = Except.error invalidMonthMsg := by
  refine ⟨?_, ?_, ?_, ?_, ?_⟩
  · intro ⟨h1, h2⟩
    rw [dateToDecimalYear, if_neg]
    push_neg
    exact ⟨h1, h2⟩
  · intro h
    rw [dateToDecimalYear, if_pos]
    rcases h with h | h
    · exact Or.inl h
    · exact Or.inr h
  · rfl
  · rfl
  · rfl

/-- C7 witness: the theorem applied at the concrete inputs `(2024, 2)`
(inside the valid range) and `(2024, 13)` (outside it). -/
theorem dateToDecimalYear_spec_witness :
    dateToDecimalYear 2024 2 =
      Except.ok (roundTo 3 ((2024 : ℚ) + ((2 : ℚ) - 1) / 12)) ∧
    dateToDecimalYear 2024 13 = Except.error invalidMonthMsg :=
  ⟨(dateToDecimalYear_spec 2024 2).1 (by decide),
    (dateToDecimalYear_spec 2024 13).2.1 (by decide)⟩

unseal Rat.mul Rat.inv Rat.add Rat.sub in
theorem ratRound_zero : ratRound 0 = 0 := by decide

theorem roundTo_zero (n : ℕ) : roundTo n 0 = 0 := by
  rw [roundTo, zero_mul, ratRound_zero]
  simp

/-- C8 — Whenever the endpoint conversions and the underlying sequestration
call succeed, `calculateAverageAnnualSequestration` succeeds with
`averagePerYear` the rounded quotient `totalCarbon / years` computed only on
the `0 < years` branch, where `years = endDecimalYear − startDecimalYear`;
and whenever `years ≤ 0` it returns `averagePerYear = 0` as a success instead
of dividing or failing. -/
theorem averageAnnual_guarded_division (resp : SimulationResponse)
    (sy sm ey em : ℤ) (ds de t : ℚ) (sc ec : Option ℚ) (dp : Option ℕ)
    (hs : dateToDecimalYear sy sm = Except.ok ds)
    (he : dateToDecimalYear ey em = Except.ok de)
    (hr : calculateCarbonSequestration resp ds de = ⟨true, some t, sc, ec, dp, none⟩) :
    calculateAverageAnnualSequestration resp sy sm ey em =
      ⟨true, some t, some (roundTo 10 (if 0 < de - ds then t / (de - ds) else 0)),
        some (roundTo 2 (de - ds)), none⟩ ∧
    (de - ds ≤ 0 →
      (calculateAverageAnnualSequestration resp sy sm ey em).averagePerYear = some 0) := by
  have hmain : calculateAverageAnnualSequestration resp sy sm ey em =
      ⟨true, some t, some (roundTo 10 (if 0 < de - ds then t / (de - ds) else 0)),
        some (roundTo 2 (de - ds)), none⟩ := by
    simp only [calculateAverageAnnualSequestration, hs, he, hr]
    rw [if_neg (by simp)]
  refine ⟨hmain, ?_⟩
  intro hle
  rw [hmain]
  show some (roundTo 10 (if 0 < de - ds then t / (de - ds) else 0)) = some 0
  rw [if_neg (not_lt.mpr hle), roundTo_zero]

/-- The CSV payload used by the C8 witness: two usable rows at decimal years
2024 and 2025. -/
def witnessAvgCsv : Str :=
  ( "Dec. Year,C mass of trees (tC/ha)" ).data ++
    '\x0a' :: ( "2024.0,10.0" ).data ++ '\x0a' :: ( "2025.0,12.0" ).data

unseal Rat.mul Rat.inv Rat.add Rat.sub in
/-- C8 witness: a reversed date range (start 2025-01, end 2024-01) gives
`years = -1 ≤ 0` and a successful result with `averagePerYear = 0`. -/
theorem averageAnnual_guarded_division_witness :
    calculateAverageAnnualSequestration ⟨true, some witnessAvgCsv⟩ 2025 1 2024 1 =
      ⟨true, some (-2),
        some (roundTo 10 (if 0 < (2024 : ℚ) - 2025 then -2 / ((2024 : ℚ) - 2025) else 0)),
        some (roundTo 2 ((2024 : ℚ) - 2025)), none⟩ ∧
    ((2024 : ℚ) - 2025 ≤ 0 →
      (calculateAverageAnnualSequestration ⟨true, some witnessAvgCsv⟩ 2025 1 2024 1).averagePerYear =
        some 0) :=
  averageAnnual_guarded_division ⟨true, some witnessAvgCsv⟩ 2025 1 2024 1
    2025 2024 (-2) (some 12) (some 10) (some 2) (by rfl) (by rfl) (by decide)

/-- C9 — For every `seriesLength ≥ 1`, the shared tick indices are exactly
index 0, every multiple of `step = max 1 ⌈seriesLength/8⌉` below the length,
and the last index; in particular for length 17 the step is 3 and the ticks
are `{0, 3, 6, 9, 12, 15, 16}`. -/
theorem sharedTickIndices_spec (seriesLength : ℕ) (h : 1 ≤ seriesLength) :
    getSharedTickIndices seriesLength =
      {0} ∪
        ((Finset.range seriesLength).filter
          (fun i => (max 1 ((seriesLength + 7) / 8)) ∣ i)) ∪
        {seriesLength - 1} ∧
    getSharedTickIndices 17 = {0, 3, 6, 9, 12, 15, 16} := by
  constructor
  · rw [getSharedTickIndices, if_neg (by omega)]
    ext i
    simp only [Finset.mem_filter, Finset.mem_range, Finset.mem_union,
      Finset.mem_singleton]
    have hstep : 0 < max 1 ((seriesLength + 7) / 8) := by omega
    constructor
    · rintro ⟨hi, hmod | hlast⟩
      · exact Or.inl (Or.inr ⟨hi, Nat.dvd_of_mod_eq_zero hmod⟩)
      · exact Or.inr hlast
    · rintro ((rfl | ⟨hi, hdvd⟩) | rfl)
      · exact ⟨by omega, Or.inl (Nat.zero_mod _)⟩
      · exact ⟨hi, Or.inl (Nat.dvd_iff_mod_eq_zero.mp hdvd)⟩
      · exact ⟨by omega, Or.inr rfl⟩
  · decide

/-- C9 witness: the theorem applied at the concrete length 17. -/
theorem sharedTickIndices_spec_witness :
    getSharedTickIndices 17 =
      {0} ∪ ((Finset.range 17).filter (fun i => (max 1 ((17 + 7) / 8)) ∣ i)) ∪ {17 - 1} ∧
    getSharedTickIndices 17 = {0, 3, 6, 9, 12, 15, 16} :=
  sharedTickIndices_spec 17 (by decide)

/-- The step-series spec formulation of the cumulative series: point `i`
carries the label of change `i` and `roundTo 10` of the exact (unrounded)
running sum of the deltas `0..i`. -/
def cumulativeSeriesSpec (changes : List StepCarbonChange) : List CumulativeCarbonPoint :=
  (List.range changes.length).map (fun i =>
    ⟨(changes.getD i ⟨[], 0⟩).label,
      roundTo 10 (((changes.take (i + 1)).map StepCarbonChange.delta).sum)⟩)

theorem buildCumulativeFrom_eq :
    ∀ (changes : List StepCarbonChange) (t : ℚ),
      buildCumulativeFrom t changes =
        (List.range changes.length).map (fun i =>
          ⟨(changes.getD i ⟨[], 0⟩).label,
            roundTo 10 (t + ((changes.take (i + 1)).map StepCarbonChange.delta).sum)⟩)
  | [], _ => rfl
  | c :: rest, t => by
    rw [buildCumulativeFrom, buildCumulativeFrom_eq rest (t + c.delta)]
    show _ :: _ = (List.range (rest.length + 1)).map _
    rw [List.range_succ_eq_map, List.map_cons, List.map_map]
    congr 1
    · simp
    · refine List.map_congr_left ?_
      intro i _
      simp [Function.comp, add_assoc]

/-- C10 — The cumulative series has exactly the same length and labels as the
input changes, and the total at index `i` is `roundTo 10` of the exact running
sum of deltas `0..i`: rounding is applied per emitted point only and is never
fed back into the accumulator. -/
theorem cumulative_series_rounding_spec (changes : List StepCarbonChange) :
    buildCumulativeSequestrationSeries changes = cumulativeSeriesSpec changes ∧
    (buildCumulativeSequestrationSeries changes).length = changes.length ∧
    (buildCumulativeSequestrationSeries changes).map CumulativeCarbonPoint.label =
      changes.map StepCarbonChange.label := by
  have hmain : buildCumulativeSequestrationSeries changes = cumulativeSeriesSpec changes := by
    rw [buildCumulativeSequestrationSeries, buildCumulativeFrom_eq, cumulativeSeriesSpec]
    refine List.map_congr_left ?_
    intro i _
    rw [zero_add]
  refine ⟨hmain, ?_, ?_⟩
  · rw [hmain, cumulativeSeriesSpec, List.length_map, List.length_range]
  · rw [hmain, cumulativeSeriesSpec, List.map_map]
    apply List.ext_getElem
    · simp
    · intro i h1 h2
      have h3 : i < changes.length := by simpa using h2
      simp [Function.comp, List.getD, List.getElem?_eq_getElem h3]

/-- A payload whose only non-blank lines are the header and exactly one valid
data row. -/
def oneRowCsv : Str :=
  ( "Dec. Year,C mass of trees (tC/ha)" ).data ++ '\x0a' :: ( "2024.0,10.0" ).data

/-- A payload consisting of the header line alone. -/
def headerOnlyCsv : Str := ( "Dec. Year,C mass of trees (tC/ha)" ).data

unseal Rat.mul Rat.inv Rat.add Rat.sub in
/-- C1 counterexample — a payload with a header row and exactly one valid
data row: the sequestration operation returns a success result (both
endpoints resolve to the single row, `totalCarbon = 0`), not an
insufficient-data failure. -/
theorem seq_one_usable_row_success_counterexample :
    (splitLines oneRowCsv).length = 2 ∧
    calculateCarbonSequestration ⟨true, some oneRowCsv⟩ 2024 2025 =
      ⟨true, some 0, some 10, some 10, some 2, none⟩ := by decide

unseal Rat.mul Rat.inv Rat.add Rat.sub in
/-- C1 amended — the sequestration operation returns the no-data-rows
(insufficient-data) failure exactly when the payload guard passes (success
flag set, payload present and non-empty) and the payload has fewer than 2
non-blank *lines*, header included: both directions of the characterization,
so the error arises in no other case; and a payload with a header row and
exactly one usable data row returns a success result. -/
theorem seq_row_threshold_amended :
    (∀ (resp : SimulationResponse) (a b : ℚ),
      calculateCarbonSequestration resp a b = seqFailure noDataRowsMsg ↔
        resp.success = true ∧
          ∃ s, resp.data = some s ∧ s ≠ [] ∧ (splitLines s).length < 2) ∧
    calculateCarbonSequestration ⟨true, some oneRowCsv⟩ 2024 2025 =
      ⟨true, some 0, some 10, some 10, some 2, none⟩ := by
  constructor
  · rintro ⟨succ, data⟩ a b
    constructor
    · intro h
      rw [calculateCarbonSequestration] at h
      split at h
      · exact absurd (congrArg SeqResult.errMsg h) (by decide)
      · rename_i hsucc
        split at h
        · exact absurd (congrArg SeqResult.errMsg h) (by decide)
        · rename_i csv hdata
          split at h
          · exact absurd (congrArg SeqResult.errMsg h) (by decide)
          · rename_i hcsv
            dsimp only at h
            split at h
            · rename_i hlen
              refine ⟨?_, csv, ?_, ?_, hlen⟩
              · simpa using Bool.not_eq_false _ |>.mp (by simpa using hsucc)
              · exact hdata
              · intro hnil
                rw [hnil] at hcsv
                exact hcsv rfl
            · split at h
              · exact absurd (congrArg SeqResult.errMsg h) (by decide)
              · split at h
                · exact absurd (congrArg SeqResult.errMsg h) (by decide)
                · split at h
                  · exact Bool.noConfusion (congrArg SeqResult.success h)
                  · exact absurd (congrArg SeqResult.errMsg h) (by decide)
    · rintro ⟨hsucc, s, hdata, hne, hlen⟩
      subst hsucc
      subst hdata
      match s, hne with
      | c :: t, _ =>
        simp [calculateCarbonSequestration, hlen]
  · decide

/-- C1 witness: the amended characterization applied to the concrete
header-only payload (1 non-blank line), which therefore fails with the
no-data-rows error. -/
theorem seq_row_threshold_amended_witness :
    calculateCarbonSequestration ⟨true, some headerOnlyCsv⟩ 2024 2025 =
      seqFailure noDataRowsMsg :=
  (seq_row_threshold_amended.1 ⟨true, some headerOnlyCsv⟩ 2024 2025).mpr
    ⟨rfl, headerOnlyCsv, rfl, by decide, by decide⟩

/-- A header with five columns, followed by one full row and one truncated
row of only four fields whose required fields all parse numerically. -/
def shortRowCsv : Str :=
  ( "Year,Step in Year,C mass of trees (tC/ha),C mass of forest debris (tC/ha),Comment" ).data ++
    '\x0a' :: ( "2024,1,10.0,2.0,x" ).data ++ '\x0a' :: ( "2024,2,10.5,2.1" ).data

/-- The same payload with the truncated row removed. -/
def noShortRowCsv : Str :=
  ( "Year,Step in Year,C mass of trees (tC/ha),C mass of forest debris (tC/ha),Comment" ).data ++
    '\x0a' :: ( "2024,1,10.0,2.0,x" ).data

unseal Rat.mul Rat.inv Rat.add Rat.sub in
/-- C2 counterexample — the row `2024,2,10.5,2.1` has 4 comma-split fields
against 5 header columns, yet it is not skipped: with it present the chart
extraction succeeds and its single emitted change `"2024-S2"` is labelled
from the short row; with the short row removed the same payload fails for
lack of points. -/
theorem short_row_contributes_counterexample :
    (splitRow ( "2024,2,10.5,2.1" ).data).length <
      (splitRow
        ( "Year,Step in Year,C mass of trees (tC/ha),C mass of forest debris (tC/ha),Comment" ).data).length ∧
    extractStepCarbonChanges shortRowCsv ⟨2024, 1, 2024, 2⟩ =
      ⟨true, none, some [⟨( "2024-S2" ).data, 3 / 5⟩]⟩ ∧
    extractStepCarbonChanges noShortRowCsv ⟨2024, 1, 2024, 2⟩ =
      ⟨false, some notEnoughPointsMsg, none⟩ := by decide

/-- C2 amended — a data row is skipped exactly when some required field fails
to parse numerically (in particular when a required column index lies beyond
the row's comma-split fields); the row's field count is never compared with
the header column count, so a short row whose required fields all parse
contributes normally. -/
theorem short_row_skip_iff_required_field_missing (yi si ti di dy cy : ℕ)
    (line : Str) :
    ((rowToChartPoint yi si ti di line).isSome =
      ((intFieldAt (splitRow line) yi).isSome &&
        (intFieldAt (splitRow line) si).isSome &&
        (floatFieldAt (splitRow line) ti).isSome &&
        (floatFieldAt (splitRow line) di).isSome)) ∧
    ((rowToRecord dy cy line).isSome =
      ((floatFieldAt (splitRow line) dy).isSome &&
        (floatFieldAt (splitRow line) cy).isSome)) := by
  constructor
  · rw [rowToChartPoint]
    rcases intFieldAt (splitRow line) yi with _ | y <;>
      rcases intFieldAt (splitRow line) si with _ | s <;>
        rcases floatFieldAt (splitRow line) ti with _ | tr <;>
          rcases floatFieldAt (splitRow line) di with _ | db <;> rfl
  · rw [rowToRecord]
    rcases floatFieldAt (splitRow line) dy with _ | d <;>
      rcases floatFieldAt (splitRow line) cy with _ | c <;> rfl

theorem foldl_nearestPairStep (sd ed : ℚ) :
    ∀ (recs : List (ℚ × ℚ)) (a b : Option (ℚ × ℚ)),
      recs.foldl (nearestPairStep sd ed) (a, b) =
        (recs.foldl (nearestStep sd) a, recs.foldl (nearestStep ed) b)
  | [], _, _ => rfl
  | r :: rs, a, b => foldl_nearestPairStep sd ed rs (nearestStep sd a r) (nearestStep ed b r)
